import Mathlib

/-!
Verification development for the todo.txt terminal task manager.

The two verified components are:
* `WidgetList` — the windowed list navigator
  (source: `src/layout/widget/widget_list.rs`);
* `ToDo` — the in-memory task store with multi-dimensional tag filtering
  (source: `src/todo.rs`).

Modelling conventions: Rust `usize` values are modelled as `Nat`.  Every
subtraction in the source is protected by a guard that rules out underflow,
except the unguarded `self.len - 1` (and the subtractions that follow it) in
`WidgetList::last`; those are modelled with explicit wrapping arithmetic
(`wsub`, reduction modulo `2^64`, the release-mode semantics of `usize`),
because the underflow there is observable behaviour.  Fallible operations
(`Vec::remove`, which panics out of range) return `Option`.  The external
todo.txt parser crate is an opaque collaborator and is modelled as a function
parameter.
-/

/-- Number of values of `usize` (64-bit). -/
def USIZE : Nat := 2 ^ 64

/-- Wrapping subtraction on `usize`, the release-mode semantics of `a - b`
in Rust; exact when `b ≤ a` and the values are in range. -/
def wsub (a b : Nat) : Nat := (a + USIZE - b) % USIZE

/-- State of the windowed list navigator, from the `WidgetList` struct in
`src/layout/widget/widget_list.rs`.  `act` is the window-relative selection
(`self.state.selected().unwrap_or(0)`, read through `act()`); `first` is the
offset of the first visible item; `size` is the viewport capacity;
`list_shift` is the configured scroll lookahead. -/
structure WidgetList where
  len : Nat
  size : Nat
  first : Nat
  act : Nat
  list_shift : Nat
deriving DecidableEq, Repr

namespace WidgetList

/-- `WidgetList::index`: absolute index of the selection, `act() + first`. -/
def index (s : WidgetList) : Nat := s.act + s.first

/-- `WidgetList::down`. -/
def down (s : WidgetList) : WidgetList :=
  if s.len ≤ s.size then
    if s.len > s.act + 1 then { s with act := s.act + 1 } else s
  else if s.size ≤ s.act + 1 + s.list_shift then
    if s.first + s.size < s.len then { s with first := s.first + 1 }
    else if s.size > s.act + 1 then { s with act := s.act + 1 }
    else s
  else { s with act := s.act + 1 }

/-- `WidgetList::up`. -/
def up (s : WidgetList) : WidgetList :=
  if s.act ≤ s.list_shift then
    if s.first > 0 then { s with first := s.first - 1 }
    else if s.act > 0 then { s with act := s.act - 1 }
    else s
  else { s with act := s.act - 1 }

/-- `WidgetList::next`: returns the `Option<(old, new)>` result together with
the updated state. -/
def next (s : WidgetList) : Option (Nat × Nat) × WidgetList :=
  if s.len ≤ s.index + 1 then (none, s)
  else (some (s.index, (down s).index), down s)

/-- `WidgetList::prev`: returns the `Option<(old, new)>` result together with
the updated state. -/
def prev (s : WidgetList) : Option (Nat × Nat) × WidgetList :=
  if s.act = 0 then (none, s)
  else (some (s.index, (up s).index), up s)

/-- `WidgetList::first` (the method; renamed to avoid the field of the same
name): move the selection to the first item. -/
def first' (s : WidgetList) : WidgetList := { s with act := 0, first := 0 }

/-- `WidgetList::last`.  The source computes `let shown_items = self.len - 1;`
without guarding `len > 0`, so the subtractions are modelled with `usize`
wrapping semantics. -/
def last (s : WidgetList) : WidgetList :=
  let shown_items := wsub s.len 1
  if s.size > shown_items then { s with first := 0, act := shown_items }
  else { s with first := wsub s.len s.size, act := wsub s.size 1 }

/-- Initial navigator state: `selection = 0`, `windowStart = 0` (as set in
`WidgetList::new`), with the given length, viewport size and shift. -/
def init (len size shift : Nat) : WidgetList :=
  { len := len, size := size, first := 0, act := 0, list_shift := shift }

/-- `k` successive calls to `down`. -/
def downN (k : Nat) (s : WidgetList) : WidgetList :=
  match k with
  | 0 => s
  | k + 1 => down (downN k s)

/-- The navigator state invariant of the specification:
`selection < windowSize`; `windowStart + selection < len` whenever `len > 0`;
`windowStart ≤ max(0, len - windowSize)` (the latter is `len - size` in
truncated `Nat` subtraction). -/
def Inv (s : WidgetList) : Prop :=
  s.act < s.size ∧ (0 < s.len → s.first + s.act < s.len) ∧ s.first ≤ s.len - s.size

instance (s : WidgetList) : Decidable (Inv s) := by
  unfold Inv; infer_instance

end WidgetList

/-- Task record, from the external `todo_txt` crate (an opaque collaborator):
the store only reads the `projects`, `contexts`, `hashtags` projections and
the `finished` flag, and relocates whole task values.  `subject` stands for
the rest of the record.  (Namespaced because core Lean already has a `Task`
type.) -/
structure Todotxt.Task where
  subject : String
  projects : List String
  contexts : List String
  hashtags : List String
  finished : Bool
deriving DecidableEq, Repr

/-- Parse errors of the collaborator parser (`todo_txt::Error`), opaque. -/
def ParseError := String
deriving instance DecidableEq for ParseError

/-- The task store, from the `ToDo` struct in `src/todo.rs`.  The `BTreeSet`
filter sets are modelled as lists of their elements (only membership and
iteration are used). -/
structure ToDo where
  pending : List Todotxt.Task
  done : List Todotxt.Task
  use_done : Bool
  project_filters : List String
  context_filters : List String
  hashtag_filters : List String
deriving DecidableEq, Repr

namespace ToDo

/-- `ToDo::add_task`. -/
def add_task (s : ToDo) (task : Todotxt.Task) : ToDo :=
  if task.finished then { s with done := s.done ++ [task] }
  else { s with pending := s.pending ++ [task] }

/-- `ToDo::move_task`: if `from.len() <= index` the call returns immediately;
otherwise `to.push(from.remove(index))`. -/
def move_task (from' to' : List Todotxt.Task) (index : Nat) : List Todotxt.Task × List Todotxt.Task :=
  if h : from'.length ≤ index then (from', to')
  else (from'.eraseIdx index, to' ++ [from'.get ⟨index, by omega⟩])

/-- `ToDo::move_pending_task`. -/
def move_pending_task (s : ToDo) (index : Nat) : ToDo :=
  let p := move_task s.pending s.done index
  { s with pending := p.1, done := p.2 }

/-- `ToDo::move_done_task`. -/
def move_done_task (s : ToDo) (index : Nat) : ToDo :=
  let p := move_task s.done s.pending index
  { s with done := p.1, pending := p.2 }

/-- `ToDo::get_filtered`: enumerate the tasks and keep those for which every
filter set's every element is contained in the task's projected tag list. -/
def get_filtered (tasks : List Todotxt.Task)
    (filters : List (List String × (Todotxt.Task → List String))) : List (Nat × Todotxt.Task) :=
  tasks.enum.filter fun task =>
    filters.all fun filter => filter.1.all fun item => (filter.2 task.2).contains item

/-- `ToDo::get_pending_filtered`. -/
def get_pending_filtered (s : ToDo) : List (Nat × Todotxt.Task) :=
  get_filtered s.pending
    [(s.project_filters, fun t => t.projects),
     (s.context_filters, fun t => t.contexts),
     (s.hashtag_filters, fun t => t.hashtags)]

/-- `ToDo::get_done_filtered`. -/
def get_done_filtered (s : ToDo) : List (Nat × Todotxt.Task) :=
  get_filtered s.done
    [(s.project_filters, fun t => t.projects),
     (s.context_filters, fun t => t.contexts),
     (s.hashtag_filters, fun t => t.hashtags)]

/-- `ToDo::get_pending_all`. -/
def get_pending_all (s : ToDo) : List (Nat × Todotxt.Task) := s.pending.enum

/-- `ToDo::new_task`: parse the text with the collaborator parser (passed as
a parameter), return the error without touching the store on failure, and on
success push the task to `done` or `pending` according to its flag.  Returns
the `Result` together with the updated store. -/
def new_task (parse : String → Except ParseError Todotxt.Task) (s : ToDo)
    (text : String) : Except ParseError Unit × ToDo :=
  match parse text with
  | Except.error e => (Except.error e, s)
  | Except.ok task =>
      (Except.ok (),
        if task.finished then { s with done := s.done ++ [task] }
        else { s with pending := s.pending ++ [task] })

/-- `ToDo::finish_task`: `self.done.push(self.pending.remove(index))`.
`Vec::remove` panics when the index is out of range, modelled as `none`. -/
def finish_task (s : ToDo) (index : Nat) : Option ToDo :=
  if h : index < s.pending.length then
    some { s with pending := s.pending.eraseIdx index,
                  done := s.done ++ [s.pending.get ⟨index, h⟩] }
  else none

/-- Insertion into a strictly sorted list of strings: the model of
`BTreeSet<&String>::insert` followed by sorted iteration. -/
def insertSorted (x : String) : List String → List String
  | [] => [x]
  | y :: ys => if x < y then x :: y :: ys else if x = y then y :: ys
               else y :: insertSorted x ys

/-- `ToDo::get_btree`: collect every tag value produced by `f` over the given
task lists into a sorted deduplicated list, then pair each value with its
membership in `selected`. -/
def get_btree (tasks : List (List Todotxt.Task)) (f : Todotxt.Task → List String)
    (selected : List String) : List (String × Bool) :=
  let btree := tasks.foldl
    (fun acc list => list.foldl
      (fun acc task => (f task).foldl (fun acc project => insertSorted project acc) acc)
      acc)
    []
  btree.map fun item => (item, selected.contains item)

/-- `ToDo::get_btree_done_switch`. -/
def get_btree_done_switch (s : ToDo) (f : Todotxt.Task → List String)
    (selected : List String) : List (String × Bool) :=
  get_btree (if s.use_done then [s.pending, s.done] else [s.pending]) f selected

/-- `ToDo::get_projects`. -/
def get_projects (s : ToDo) : List (String × Bool) :=
  get_btree_done_switch s (fun t => t.projects) s.project_filters

/-- `ToDo::get_contexts`. -/
def get_contexts (s : ToDo) : List (String × Bool) :=
  get_btree_done_switch s (fun t => t.contexts) s.context_filters

/-- `ToDo::get_hashtags`. -/
def get_hashtags (s : ToDo) : List (String × Bool) :=
  get_btree_done_switch s (fun t => t.hashtags) s.hashtag_filters

/-- The task lists scanned by the category queries: `pending`, plus `done`
iff `use_done` is set. -/
def scannedTasks (s : ToDo) : List Todotxt.Task :=
  if s.use_done then s.pending ++ s.done else s.pending

end ToDo

/-! ### Arithmetic facts about wrapping subtraction -/

theorem USIZE_pos : 0 < USIZE := by norm_num [USIZE]

/-- `wsub` agrees with truncated subtraction when no underflow occurs and the
result is in range. -/
theorem wsub_eq_sub (a b : Nat) (hb : b ≤ a) (ha : a - b < USIZE) :
    wsub a b = a - b := by
  unfold wsub
  have h : a + USIZE - b = (a - b) + USIZE := by omega
  rw [h, Nat.add_mod_right, Nat.mod_eq_of_lt ha]

/-- `wsub 0 b` underflows: it wraps around to `USIZE - b`. -/
theorem wsub_underflow (b : Nat) (h1 : 1 ≤ b) (h2 : b < USIZE) :
    wsub 0 b = USIZE - b := by
  unfold wsub
  rw [Nat.zero_add, Nat.mod_eq_of_lt (by omega)]

/-! ### Navigator lemmas -/

/-- `down` never changes `len`, `size` or `list_shift`. -/
theorem WidgetList.down_fields (s : WidgetList) :
    (down s).len = s.len ∧ (down s).size = s.size ∧
    (down s).list_shift = s.list_shift := by
  unfold down; split_ifs <;> exact ⟨rfl, rfl, rfl⟩

/-- Core behaviour of `down` on invariant states: it preserves the invariant,
advances the absolute index by one whenever the selection is not on the last
item, and is the identity on the last item. -/
theorem WidgetList.down_spec (s : WidgetList) (hInv : Inv s) :
    Inv (down s) ∧
    (s.index + 1 < s.len → (down s).index = s.index + 1) ∧
    (s.len ≤ s.index + 1 → down s = s) := by
  obtain ⟨len, size, first, act, shift⟩ := s
  simp only [Inv, index, down] at *
  split_ifs <;> simp_all <;> omega

/-- `up` preserves the navigator invariant. -/
theorem WidgetList.up_inv (s : WidgetList) (hInv : Inv s) : Inv (up s) := by
  obtain ⟨len, size, first, act, shift⟩ := s
  simp only [Inv, up] at *
  split_ifs <;> simp_all <;> omega

/-- `first'` preserves the navigator invariant. -/
theorem WidgetList.first'_inv (s : WidgetList) (hInv : Inv s) : Inv (first' s) := by
  obtain ⟨len, size, first, act, shift⟩ := s
  simp only [Inv, first'] at *
  omega

/-- Exact description of `last` when the list is non-empty (and the `usize`
values are in range): no subtraction underflows. -/
theorem WidgetList.last_spec (s : WidgetList) (h1 : 1 ≤ s.len) (h2 : s.len < USIZE)
    (h3 : 1 ≤ s.size) :
    (s.len ≤ s.size → last s = { s with first := 0, act := s.len - 1 }) ∧
    (s.size < s.len → last s = { s with first := s.len - s.size, act := s.size - 1 }) := by
  have hshown : wsub s.len 1 = s.len - 1 := wsub_eq_sub _ _ h1 (by omega)
  unfold last
  simp only [hshown]
  constructor
  · intro hle
    rw [if_pos (by omega)]
  · intro hlt
    rw [if_neg (by omega), wsub_eq_sub s.len s.size (by omega) (by omega),
      wsub_eq_sub s.size 1 (by omega) (by omega)]

/-- `last` preserves the navigator invariant whenever the list is non-empty. -/
theorem WidgetList.last_inv (s : WidgetList) (hInv : Inv s) (h1 : 1 ≤ s.len)
    (h2 : s.len < USIZE) (h3 : 1 ≤ s.size) : Inv (last s) := by
  obtain ⟨hthen, helse⟩ := last_spec s h1 h2 h3
  rcases le_or_lt s.len s.size with h | h
  · rw [hthen h]
    obtain ⟨len, size, first, act, shift⟩ := s
    simp only [Inv] at *
    omega
  · rw [helse h]
    obtain ⟨len, size, first, act, shift⟩ := s
    simp only [Inv] at *
    omega

/-- `downN` never changes `len`, `size` or `list_shift`. -/
theorem WidgetList.downN_fields (k : Nat) (s : WidgetList) :
    (downN k s).len = s.len ∧ (downN k s).size = s.size ∧
    (downN k s).list_shift = s.list_shift := by
  induction k with
  | zero => exact ⟨rfl, rfl, rfl⟩
  | succ k ih =>
      have h := down_fields (downN k s)
      exact ⟨h.1.trans ih.1, h.2.1.trans ih.2.1, h.2.2.trans ih.2.2⟩

/-- After `k` calls to `down` from the initial state, the absolute index is
exactly `k` (for `k` at most `len - 1`) and the invariant holds. -/
theorem WidgetList.downN_init_spec (len size shift : Nat) (hlen : 0 < len)
    (hsize : 0 < size) :
    ∀ k, k ≤ len - 1 →
      (downN k (init len size shift)).index = k ∧ Inv (downN k (init len size shift)) := by
  intro k
  induction k with
  | zero =>
      intro _
      refine ⟨rfl, ?_⟩
      show Inv (init len size shift)
      simp only [Inv, init]
      omega
  | succ k ih =>
      intro hk
      obtain ⟨hidx, hinv⟩ := ih (by omega)
      have hframe := downN_fields k (init len size shift)
      have hlen' : (downN k (init len size shift)).len = len := hframe.1
      have hlt : (downN k (init len size shift)).index + 1 < (downN k (init len size shift)).len := by
        rw [hidx, hlen']; omega
      obtain ⟨hinv', hstep, _⟩ := down_spec _ hinv
      refine ⟨?_, hinv'⟩
      show (down (downN k (init len size shift))).index = k + 1
      rw [hstep hlt, hidx]

/-! ### Claim theorems: navigator -/

/-- Claim C1: for every list length `len > 0`, window size `size ≥ 1` and
configured shift with `shift < size`, and every `k ≤ len - 1`: starting the
navigator from `selection = 0`, `windowStart = 0` and calling `down()` exactly
`k` times yields `absoluteIndex() = k`. -/
theorem claim_C1_down_reaches_each_index (len size shift k : Nat) (hlen : 0 < len)
    (hsize : 1 ≤ size) (_hshift : shift < size) (hk : k ≤ len - 1) :
    (WidgetList.downN k (WidgetList.init len size shift)).index = k :=
  (WidgetList.downN_init_spec len size shift hlen hsize k hk).1

theorem claim_C1_witness :
    0 < 7 ∧ 1 ≤ 3 ∧ 1 < 3 ∧ 6 ≤ 7 - 1 ∧
    (WidgetList.downN 6 (WidgetList.init 7 3 1)).index = 6 :=
  ⟨by decide, by decide, by decide, by decide,
   claim_C1_down_reaches_each_index 7 3 1 6 (by decide) (by decide) (by decide)
     (by decide)⟩

/-- Claim C2 counterexample: the state `len = 0`, `size = 1`, `shift = 0`,
`selection = 0`, `windowStart = 0` satisfies the invariant (and
`windowSize ≥ 1`, `0 ≤ shift < windowSize`), but `last()` does not preserve
it: the unguarded `len - 1` underflows and `windowStart` becomes `2^64 - 1`,
violating `windowStart ≤ max(0, len - windowSize)`.  So the invariant is not
preserved by every operation for every `len`. -/
theorem claim_C2_counterexample :
    WidgetList.Inv { len := 0, size := 1, first := 0, act := 0, list_shift := 0 } ∧
    ¬ WidgetList.Inv
        (WidgetList.last { len := 0, size := 1, first := 0, act := 0, list_shift := 0 }) := by
  constructor
  · decide
  · decide

/-- Claim C2 (amended): the navigator invariant — `selection < windowSize`,
`windowStart + selection < len` whenever `len > 0`, and
`windowStart ≤ max(0, len - windowSize)` — holds in the initial state
(given `windowSize ≥ 1`) and is preserved by `down`, `up`, `first`, `next`
and `prev` for any fixed `len`; `last` preserves it provided the list is
non-empty (`len ≥ 1`, with `len` a `usize` value). -/
theorem claim_C2_invariant_preservation :
    (∀ len size shift : Nat, 1 ≤ size → WidgetList.Inv (WidgetList.init len size shift)) ∧
    (∀ s : WidgetList, WidgetList.Inv s → WidgetList.Inv (WidgetList.down s)) ∧
    (∀ s : WidgetList, WidgetList.Inv s → WidgetList.Inv (WidgetList.up s)) ∧
    (∀ s : WidgetList, WidgetList.Inv s → WidgetList.Inv (WidgetList.first' s)) ∧
    (∀ s : WidgetList, WidgetList.Inv s → WidgetList.Inv (WidgetList.next s).2) ∧
    (∀ s : WidgetList, WidgetList.Inv s → WidgetList.Inv (WidgetList.prev s).2) ∧
    (∀ s : WidgetList, WidgetList.Inv s → 1 ≤ s.len → s.len < USIZE →
      WidgetList.Inv (WidgetList.last s)) := by
  refine ⟨?_, ?_, ?_, ?_, ?_, ?_, ?_⟩
  · intro len size shift h
    simp only [WidgetList.Inv, WidgetList.init]
    omega
  · exact fun s h => (WidgetList.down_spec s h).1
  · exact WidgetList.up_inv
  · exact WidgetList.first'_inv
  · intro s h
    unfold WidgetList.next
    split_ifs with hc
    · exact h
    · exact (WidgetList.down_spec s h).1
  · intro s h
    unfold WidgetList.prev
    split_ifs with hc
    · exact h
    · exact WidgetList.up_inv s h
  · intro s h h1 h2
    have hsize : 1 ≤ s.size := by
      have := h.1
      omega
    exact WidgetList.last_inv s h h1 h2 hsize

theorem claim_C2_witness :
    WidgetList.Inv (WidgetList.init 5 3 1) ∧
    WidgetList.Inv (WidgetList.down (WidgetList.init 5 3 1)) ∧
    WidgetList.Inv (WidgetList.up (WidgetList.init 5 3 1)) ∧
    WidgetList.Inv (WidgetList.last (WidgetList.init 5 3 1)) :=
  ⟨claim_C2_invariant_preservation.1 5 3 1 (by decide),
   claim_C2_invariant_preservation.2.1 _ (claim_C2_invariant_preservation.1 5 3 1 (by decide)),
   claim_C2_invariant_preservation.2.2.1 _ (claim_C2_invariant_preservation.1 5 3 1 (by decide)),
   claim_C2_invariant_preservation.2.2.2.2.2.2 _
     (claim_C2_invariant_preservation.1 5 3 1 (by decide)) (by decide) (by decide)⟩

/-- Claim C4 counterexample: with `windowSize = 10`, `len = 50`, `shift = 0`,
the sixth `down()` from the start yields `selection = 6` and
`windowStart = 0` — not `windowStart = 1`, `selection = 5` as claimed
(with `shift = 0` scrolling only begins once `selection + 1 = windowSize`). -/
theorem claim_C4_counterexample :
    (WidgetList.downN 6 (WidgetList.init 50 10 0)).first = 0 ∧
    (WidgetList.downN 6 (WidgetList.init 50 10 0)).act = 6 := by
  constructor
  · decide
  · decide

set_option maxRecDepth 4000 in
/-- Claim C4 (amended): with `windowSize = 10`, `len = 50`, `shift = 0`,
five `down()` calls from the start give `absoluteIndex() = 5`,
`windowStart = 0`; a sixth gives `absoluteIndex() = 6` with `windowStart = 0`
and `selection = 6` (no scroll yet); continuing `down()` to the list end
gives `absoluteIndex() = 49`, `windowStart = 40`, `selection = 9`.  The
originally claimed sixth-step state (`windowStart = 1`, `selection = 5`) is
what happens with `shift = 4`, the repository's default configuration. -/
theorem claim_C4_scenario :
    (WidgetList.downN 5 (WidgetList.init 50 10 0)).index = 5 ∧
    (WidgetList.downN 5 (WidgetList.init 50 10 0)).first = 0 ∧
    (WidgetList.downN 6 (WidgetList.init 50 10 0)).index = 6 ∧
    (WidgetList.downN 6 (WidgetList.init 50 10 0)).first = 0 ∧
    (WidgetList.downN 6 (WidgetList.init 50 10 0)).act = 6 ∧
    (WidgetList.downN 49 (WidgetList.init 50 10 0)).index = 49 ∧
    (WidgetList.downN 49 (WidgetList.init 50 10 0)).first = 40 ∧
    (WidgetList.downN 49 (WidgetList.init 50 10 0)).act = 9 ∧
    (WidgetList.downN 60 (WidgetList.init 50 10 0)).index = 49 ∧
    (WidgetList.downN 5 (WidgetList.init 50 10 4)).index = 5 ∧
    (WidgetList.downN 5 (WidgetList.init 50 10 4)).first = 0 ∧
    (WidgetList.downN 6 (WidgetList.init 50 10 4)).index = 6 ∧
    (WidgetList.downN 6 (WidgetList.init 50 10 4)).first = 1 ∧
    (WidgetList.downN 6 (WidgetList.init 50 10 4)).act = 5 ∧
    (WidgetList.downN 49 (WidgetList.init 50 10 4)).index = 49 ∧
    (WidgetList.downN 49 (WidgetList.init 50 10 4)).first = 40 ∧
    (WidgetList.downN 49 (WidgetList.init 50 10 4)).act = 9 := by
  decide

/-- Claim C5: `prev()` returns `None` iff `selection = 0` (tested against the
window-relative selection); in that case the state is left unchanged, and
when additionally `windowStart > 0` the absolute index is positive (earlier
items exist); otherwise it records the old absolute index, performs `up()`,
and returns both indices. -/
theorem claim_C5_prev_none_iff_selection_zero (s : WidgetList) :
    ((WidgetList.prev s).1 = none ↔ s.act = 0) ∧
    (s.act = 0 → (WidgetList.prev s).2 = s) ∧
    (s.act = 0 → 0 < s.first → 0 < s.index) ∧
    (s.act ≠ 0 →
      WidgetList.prev s =
        (some (s.index, (WidgetList.up s).index), WidgetList.up s)) := by
  unfold WidgetList.prev
  split_ifs with h
  · refine ⟨by simp [h], fun _ => rfl, ?_, fun hc => absurd h hc⟩
    intro _ hf
    simp only [WidgetList.index, h]
    omega
  · exact ⟨by simp [h], fun hc => absurd hc h, fun hc _ => absurd hc h, fun _ => rfl⟩

theorem claim_C5_witness :
    (WidgetList.prev { len := 50, size := 10, first := 3, act := 0, list_shift := 0 }).1
        = none ∧
    (WidgetList.prev { len := 50, size := 10, first := 3, act := 0, list_shift := 0 }).2
        = { len := 50, size := 10, first := 3, act := 0, list_shift := 0 } ∧
    0 < WidgetList.index { len := 50, size := 10, first := 3, act := 0, list_shift := 0 } ∧
    (WidgetList.prev { len := 50, size := 10, first := 2, act := 1, list_shift := 0 }).1
        = some (3, 2) :=
  ⟨(claim_C5_prev_none_iff_selection_zero _).1.mpr rfl,
   (claim_C5_prev_none_iff_selection_zero _).2.1 rfl,
   (claim_C5_prev_none_iff_selection_zero
      { len := 50, size := 10, first := 3, act := 0, list_shift := 0 }).2.2.1 rfl
     (by decide),
   by
     rw [(claim_C5_prev_none_iff_selection_zero
       { len := 50, size := 10, first := 2, act := 1, list_shift := 0 }).2.2.2
       (by decide)]
     decide⟩

/-- Claim C10: for every navigator state with `len ≥ 1` (a `usize` value) and
`size ≥ 1`, `last()` is well defined — the subtraction `len - 1` does not
underflow — and establishes `absoluteIndex() = len - 1`, with
`windowStart = 0`, `selection = len - 1` when `len ≤ size` and
`windowStart = len - size`, `selection = size - 1` otherwise; for `len = 0`
the unguarded subtraction underflows and `windowStart` wraps to a value
exceeding `len`. -/
theorem claim_C10_last_requires_nonempty :
    (∀ s : WidgetList, 1 ≤ s.len → s.len < USIZE → 1 ≤ s.size →
      wsub s.len 1 = s.len - 1 ∧
      (WidgetList.last s).index = s.len - 1 ∧
      (s.len ≤ s.size →
        (WidgetList.last s).first = 0 ∧ (WidgetList.last s).act = s.len - 1) ∧
      (s.size < s.len →
        (WidgetList.last s).first = s.len - s.size ∧
        (WidgetList.last s).act = s.size - 1)) ∧
    (∀ s : WidgetList, s.len = 0 → 1 ≤ s.size → s.size < USIZE →
      (WidgetList.last s).first = USIZE - s.size ∧
      s.len < (WidgetList.last s).first) := by
  constructor
  · intro s h1 h2 h3
    obtain ⟨hthen, helse⟩ := WidgetList.last_spec s h1 h2 h3
    refine ⟨wsub_eq_sub _ _ h1 (by omega), ?_, ?_, ?_⟩
    · rcases le_or_lt s.len s.size with h | h
      · rw [hthen h]
        simp only [WidgetList.index]
        omega
      · rw [helse h]
        simp only [WidgetList.index]
        omega
    · intro h
      rw [hthen h]
      exact ⟨rfl, rfl⟩
    · intro h
      rw [helse h]
      exact ⟨rfl, rfl⟩
  · intro s h0 h3 h4
    have hs : wsub s.len 1 = USIZE - 1 := by
      rw [h0]
      exact wsub_underflow 1 le_rfl (by norm_num [USIZE])
    have hfirst : (WidgetList.last s).first = USIZE - s.size := by
      unfold WidgetList.last
      simp only [hs]
      rw [if_neg (by omega)]
      show wsub s.len s.size = USIZE - s.size
      rw [h0]
      exact wsub_underflow s.size h3 h4
    exact ⟨hfirst, by rw [hfirst, h0]; omega⟩

theorem claim_C10_witness :
    (WidgetList.last (WidgetList.init 5 3 0)).index = 4 ∧
    (WidgetList.last (WidgetList.init 5 3 0)).first = 2 ∧
    (WidgetList.last (WidgetList.init 5 3 0)).act = 2 ∧
    (WidgetList.last
      { len := 0, size := 3, first := 0, act := 0, list_shift := 0 }).first
        = USIZE - 3 :=
  ⟨(claim_C10_last_requires_nonempty.1 (WidgetList.init 5 3 0) (by decide)
      (by decide) (by decide)).2.1,
   ((claim_C10_last_requires_nonempty.1 (WidgetList.init 5 3 0) (by decide)
      (by decide) (by decide)).2.2.2 (by decide)).1,
   ((claim_C10_last_requires_nonempty.1 (WidgetList.init 5 3 0) (by decide)
      (by decide) (by decide)).2.2.2 (by decide)).2,
   (claim_C10_last_requires_nonempty.2
      { len := 0, size := 3, first := 0, act := 0, list_shift := 0 } rfl
      (by decide) (by decide)).1⟩

/-! ### Store lemmas -/

/-- `move_task` out of range is a no-op. -/
theorem ToDo.move_task_noop (from' to' : List Todotxt.Task) (i : Nat)
    (h : from'.length ≤ i) : ToDo.move_task from' to' i = (from', to') := by
  unfold ToDo.move_task
  rw [dif_pos h]

/-- `move_task` in range removes the indexed entry and appends it to the
destination. -/
theorem ToDo.move_task_eq (from' to' : List Todotxt.Task) (i : Nat)
    (h : i < from'.length) :
    ToDo.move_task from' to' i =
      (from'.eraseIdx i, to' ++ [from'.get ⟨i, h⟩]) := by
  unfold ToDo.move_task
  rw [dif_neg (by omega)]

/-! ### Claim theorems: store mutation -/

/-- Claim C6: for every pair of sequences and index, `move_task` with
`index < from.len()` removes the entry at `index` from `from` and appends
exactly that entry at the end of `to`, preserving the relative order of the
remainder (`take index ++ drop (index+1)`); with `index ≥ from.len()` it is
a silent no-op, and so are the `move_pending_task` / `move_done_task`
wrappers on the whole store. -/
theorem claim_C6_move_task_semantics (from' to' : List Todotxt.Task) (i : Nat) :
    (∀ h : i < from'.length,
      ToDo.move_task from' to' i =
        (from'.take i ++ from'.drop (i + 1), to' ++ [from'.get ⟨i, h⟩])) ∧
    (from'.length ≤ i → ToDo.move_task from' to' i = (from', to')) ∧
    (∀ s : ToDo, s.pending.length ≤ i → ToDo.move_pending_task s i = s) ∧
    (∀ s : ToDo, s.done.length ≤ i → ToDo.move_done_task s i = s) := by
  refine ⟨?_, ?_, ?_, ?_⟩
  · intro h
    rw [ToDo.move_task_eq from' to' i h, List.eraseIdx_eq_take_drop_succ]
  · exact ToDo.move_task_noop from' to' i
  · intro s h
    show { s with pending := (ToDo.move_task s.pending s.done i).1,
                  done := (ToDo.move_task s.pending s.done i).2 } = s
    rw [ToDo.move_task_noop s.pending s.done i h]
  · intro s h
    show { s with done := (ToDo.move_task s.done s.pending i).1,
                  pending := (ToDo.move_task s.done s.pending i).2 } = s
    rw [ToDo.move_task_noop s.done s.pending i h]

theorem claim_C6_witness :
    ToDo.move_task
        [⟨"t1", [], [], [], false⟩, ⟨"t2", [], [], [], false⟩, ⟨"t3", [], [], [], false⟩]
        [] 1 =
      ([⟨"t1", [], [], [], false⟩, ⟨"t3", [], [], [], false⟩],
       [⟨"t2", [], [], [], false⟩]) ∧
    ToDo.move_pending_task
        { pending := [⟨"t1", [], [], [], false⟩, ⟨"t2", [], [], [], false⟩,
                      ⟨"t3", [], [], [], false⟩],
          done := [], use_done := false, project_filters := [],
          context_filters := [], hashtag_filters := [] } 5 =
      { pending := [⟨"t1", [], [], [], false⟩, ⟨"t2", [], [], [], false⟩,
                    ⟨"t3", [], [], [], false⟩],
        done := [], use_done := false, project_filters := [],
        context_filters := [], hashtag_filters := [] } := by
  constructor
  · rw [(claim_C6_move_task_semantics _ [] 1).1 (by decide)]
    decide
  · exact (claim_C6_move_task_semantics
      [⟨"t1", [], [], [], false⟩, ⟨"t2", [], [], [], false⟩,
       ⟨"t3", [], [], [], false⟩] [] 5).2.2.1 _ (by decide)

/-- Claim C7: `new_task` is atomic — when the collaborator parser fails the
error is returned and the store (all sequences and filter sets) is exactly
unchanged; when the parser produces task `t`, the effect on the store is
exactly that of `add_task s t` (push to `done` iff `t.finished`). -/
theorem claim_C7_new_task_atomic (parse : String → Except ParseError Todotxt.Task)
    (s : ToDo) (text : String) :
    (∀ e, parse text = Except.error e →
      ToDo.new_task parse s text = (Except.error e, s)) ∧
    (∀ t, parse text = Except.ok t →
      ToDo.new_task parse s text = (Except.ok (), ToDo.add_task s t)) ∧
    (∀ t : Todotxt.Task,
      ToDo.add_task s t =
        if t.finished then { s with done := s.done ++ [t] }
        else { s with pending := s.pending ++ [t] }) := by
  refine ⟨?_, ?_, fun t => rfl⟩
  · intro e he
    unfold ToDo.new_task
    rw [he]
  · intro t ht
    unfold ToDo.new_task
    rw [ht]
    rfl

theorem claim_C7_witness :
    ToDo.new_task (fun _ => Except.error "malformed")
        { pending := [], done := [], use_done := false, project_filters := [],
          context_filters := [], hashtag_filters := [] } "x" =
      (Except.error "malformed",
       { pending := [], done := [], use_done := false, project_filters := [],
         context_filters := [], hashtag_filters := [] }) ∧
    ToDo.new_task (fun _ => Except.ok ⟨"t", [], [], [], true⟩)
        { pending := [], done := [], use_done := false, project_filters := [],
          context_filters := [], hashtag_filters := [] } "x" =
      (Except.ok (),
       ToDo.add_task
         { pending := [], done := [], use_done := false, project_filters := [],
           context_filters := [], hashtag_filters := [] }
         ⟨"t", [], [], [], true⟩) :=
  ⟨(claim_C7_new_task_atomic _ _ "x").1 "malformed" rfl,
   (claim_C7_new_task_atomic _ _ "x").2.1 _ rfl⟩

/-- Claim C9: `finish_task` (under its precondition) and `move_pending_task`
remove `pending[index]` and append the very same task record to `done`, with
every field unchanged — in particular the `finished` flag is not set by the
move — while `add_task` routes a task to `done` only when its flag is
already `true`; consequently `done` can contain records with
`finished = false`. -/
theorem claim_C9_finish_task_keeps_flag :
    (∀ (s : ToDo) (i : Nat) (h : i < s.pending.length),
      ToDo.finish_task s i =
        some { s with pending := s.pending.eraseIdx i,
                      done := s.done ++ [s.pending.get ⟨i, h⟩] } ∧
      ToDo.move_pending_task s i =
        { s with pending := s.pending.eraseIdx i,
                 done := s.done ++ [s.pending.get ⟨i, h⟩] }) ∧
    (∀ (s : ToDo) (t : Todotxt.Task), t.finished = true →
      ToDo.add_task s t = { s with done := s.done ++ [t] }) ∧
    (∀ (s : ToDo) (t : Todotxt.Task), t.finished = false →
      ToDo.add_task s t = { s with pending := s.pending ++ [t] }) ∧
    (ToDo.finish_task
        { pending := [⟨"a", [], [], [], false⟩], done := [], use_done := false,
          project_filters := [], context_filters := [], hashtag_filters := [] } 0 =
      some { pending := [], done := [⟨"a", [], [], [], false⟩], use_done := false,
             project_filters := [], context_filters := [], hashtag_filters := [] } ∧
     (Todotxt.Task.finished ⟨"a", [], [], [], false⟩) = false) := by
  refine ⟨?_, ?_, ?_, by decide, rfl⟩
  · intro s i h
    constructor
    · unfold ToDo.finish_task
      rw [dif_pos h]
    · show { s with pending := (ToDo.move_task s.pending s.done i).1,
                    done := (ToDo.move_task s.pending s.done i).2 } = _
      rw [ToDo.move_task_eq s.pending s.done i h]
  · intro s t ht
    unfold ToDo.add_task
    rw [if_pos ht]
  · intro s t ht
    unfold ToDo.add_task
    rw [if_neg (by simp [ht])]

theorem claim_C9_witness :
    ToDo.move_pending_task
        { pending := [⟨"a", [], [], [], false⟩], done := [], use_done := false,
          project_filters := [], context_filters := [], hashtag_filters := [] } 0 =
      { pending := [], done := [⟨"a", [], [], [], false⟩], use_done := false,
        project_filters := [], context_filters := [], hashtag_filters := [] } ∧
    ToDo.add_task
        { pending := [], done := [], use_done := false, project_filters := [],
          context_filters := [], hashtag_filters := [] }
        ⟨"a", [], [], [], false⟩ =
      { pending := [⟨"a", [], [], [], false⟩], done := [], use_done := false,
        project_filters := [], context_filters := [], hashtag_filters := [] } := by
  constructor
  · rw [(claim_C9_finish_task_keeps_flag.1 _ 0 (by decide)).2]
    decide
  · rw [claim_C9_finish_task_keeps_flag.2.2.1 _ _ rfl]
    decide

/-! ### Claim theorems: filtering -/

/-- Membership in `get_filtered`: a pair is kept iff it is an enumerated pair
of the input and the task's tag lists absorb every active filter value. -/
theorem ToDo.mem_get_filtered (tasks : List Todotxt.Task)
    (filters : List (List String × (Todotxt.Task → List String)))
    (p : Nat × Todotxt.Task) :
    p ∈ ToDo.get_filtered tasks filters ↔
      p ∈ tasks.enum ∧ ∀ f ∈ filters, ∀ x ∈ f.1, x ∈ f.2 p.2 := by
  simp [ToDo.get_filtered, List.mem_filter, List.all_eq_true, List.contains,
    List.elem_iff]

/-- Claim C3: `get_filtered` returns exactly the pairs `(original_index, task)`
of tasks satisfying, for every dimension, containment of every value of that
dimension's filter set in the task's tag list (empty filter sets impose no
constraint, values and dimensions are ANDed); the output is a sublist of the
enumeration, so original order and original indices are preserved. -/
theorem claim_C3_get_filtered_characterization (s : ToDo) :
    (∀ (i : Nat) (t : Todotxt.Task),
      (i, t) ∈ ToDo.get_pending_filtered s ↔
        (s.pending[i]? = some t ∧
         (∀ x ∈ s.project_filters, x ∈ t.projects) ∧
         (∀ x ∈ s.context_filters, x ∈ t.contexts) ∧
         (∀ x ∈ s.hashtag_filters, x ∈ t.hashtags))) ∧
    List.Sublist (ToDo.get_pending_filtered s) (ToDo.get_pending_all s) ∧
    (∀ (i : Nat) (t : Todotxt.Task),
      (i, t) ∈ ToDo.get_done_filtered s ↔
        (s.done[i]? = some t ∧
         (∀ x ∈ s.project_filters, x ∈ t.projects) ∧
         (∀ x ∈ s.context_filters, x ∈ t.contexts) ∧
         (∀ x ∈ s.hashtag_filters, x ∈ t.hashtags))) := by
  refine ⟨?_, List.filter_sublist _, ?_⟩
  · intro i t
    rw [show ToDo.get_pending_filtered s = ToDo.get_filtered s.pending
        [(s.project_filters, fun t => t.projects),
         (s.context_filters, fun t => t.contexts),
         (s.hashtag_filters, fun t => t.hashtags)] from rfl,
      ToDo.mem_get_filtered, List.mk_mem_enum_iff_getElem?]
    simp [List.forall_mem_cons]
  · intro i t
    rw [show ToDo.get_done_filtered s = ToDo.get_filtered s.done
        [(s.project_filters, fun t => t.projects),
         (s.context_filters, fun t => t.contexts),
         (s.hashtag_filters, fun t => t.hashtags)] from rfl,
      ToDo.mem_get_filtered, List.mk_mem_enum_iff_getElem?]
    simp [List.forall_mem_cons]

theorem claim_C3_witness :
    ((0, (⟨"A", ["p1", "p2"], ["c1"], [], false⟩ : Todotxt.Task)) ∈
      ToDo.get_pending_filtered
        { pending := [⟨"A", ["p1", "p2"], ["c1"], [], false⟩,
                      ⟨"B", [], [], [], false⟩],
          done := [], use_done := false, project_filters := ["p1"],
          context_filters := [], hashtag_filters := [] }) ∧
    ¬ ((1, (⟨"B", [], [], [], false⟩ : Todotxt.Task)) ∈
      ToDo.get_pending_filtered
        { pending := [⟨"A", ["p1", "p2"], ["c1"], [], false⟩,
                      ⟨"B", [], [], [], false⟩],
          done := [], use_done := false, project_filters := ["p1"],
          context_filters := [], hashtag_filters := [] }) := by
  constructor
  · exact ((claim_C3_get_filtered_characterization _).1 0 _).mpr (by decide)
  · intro h
    have h2 := ((claim_C3_get_filtered_characterization _).1 1 _).mp h
    revert h2
    decide

/-! ### Category index lemmas -/

theorem ToDo.mem_insertSorted (x y : String) (l : List String) :
    y ∈ ToDo.insertSorted x l ↔ y = x ∨ y ∈ l := by
  induction l with
  | nil => simp [ToDo.insertSorted]
  | cons z zs ih =>
      unfold ToDo.insertSorted
      split_ifs with h1 h2
      · simp only [List.mem_cons]
      · subst h2
        simp only [List.mem_cons]
        tauto
      · simp only [List.mem_cons, ih]
        tauto

theorem ToDo.sorted_insertSorted (x : String) (l : List String)
    (h : l.Sorted (· < ·)) : (ToDo.insertSorted x l).Sorted (· < ·) := by
  induction l with
  | nil => simp [ToDo.insertSorted]
  | cons z zs ih =>
      rw [List.sorted_cons] at h
      unfold ToDo.insertSorted
      split_ifs with h1 h2
      · rw [List.sorted_cons]
        refine ⟨?_, List.sorted_cons.mpr h⟩
        intro b hb
        rcases List.mem_cons.mp hb with rfl | hb2
        · exact h1
        · exact lt_trans h1 (h.1 b hb2)
      · exact List.sorted_cons.mpr h
      · rw [List.sorted_cons]
        refine ⟨?_, ih h.2⟩
        intro b hb
        rcases (ToDo.mem_insertSorted x b zs).mp hb with rfl | hb2
        · exact lt_of_le_of_ne (le_of_not_lt h1) (Ne.symm h2)
        · exact h.1 b hb2

theorem ToDo.mem_foldl_insertSorted (ss acc : List String) (y : String) :
    y ∈ ss.foldl (fun a p => ToDo.insertSorted p a) acc ↔ y ∈ ss ∨ y ∈ acc := by
  induction ss generalizing acc with
  | nil => simp
  | cons s ss ih =>
      simp only [List.foldl_cons, ih, ToDo.mem_insertSorted, List.mem_cons]
      tauto

theorem ToDo.sorted_foldl_insertSorted (ss acc : List String)
    (h : acc.Sorted (· < ·)) :
    (ss.foldl (fun a p => ToDo.insertSorted p a) acc).Sorted (· < ·) := by
  induction ss generalizing acc with
  | nil => exact h
  | cons s ss ih => exact ih _ (ToDo.sorted_insertSorted s acc h)

theorem ToDo.mem_foldl_tags (f : Todotxt.Task → List String)
    (ts : List Todotxt.Task) (acc : List String) (y : String) :
    y ∈ ts.foldl
        (fun a t => (f t).foldl (fun a p => ToDo.insertSorted p a) a) acc ↔
      (∃ t ∈ ts, y ∈ f t) ∨ y ∈ acc := by
  induction ts generalizing acc with
  | nil => simp
  | cons t ts ih =>
      simp only [List.foldl_cons, ih, ToDo.mem_foldl_insertSorted, List.mem_cons]
      constructor
      · rintro (⟨u, hu, hy⟩ | hy | hy)
        · exact Or.inl ⟨u, Or.inr hu, hy⟩
        · exact Or.inl ⟨t, Or.inl rfl, hy⟩
        · exact Or.inr hy
      · rintro (⟨u, rfl | hu, hy⟩ | hy)
        · exact Or.inr (Or.inl hy)
        · exact Or.inl ⟨u, hu, hy⟩
        · exact Or.inr (Or.inr hy)

theorem ToDo.sorted_foldl_tags (f : Todotxt.Task → List String)
    (ts : List Todotxt.Task) (acc : List String) (h : acc.Sorted (· < ·)) :
    (ts.foldl
      (fun a t => (f t).foldl (fun a p => ToDo.insertSorted p a) a) acc).Sorted
        (· < ·) := by
  induction ts generalizing acc with
  | nil => exact h
  | cons t ts ih => exact ih _ (ToDo.sorted_foldl_insertSorted _ _ h)

theorem ToDo.mem_foldl_lists (f : Todotxt.Task → List String)
    (tss : List (List Todotxt.Task)) (acc : List String) (y : String) :
    y ∈ tss.foldl
        (fun a l => l.foldl
          (fun a t => (f t).foldl (fun a p => ToDo.insertSorted p a) a) a) acc ↔
      (∃ l ∈ tss, ∃ t ∈ l, y ∈ f t) ∨ y ∈ acc := by
  induction tss generalizing acc with
  | nil => simp
  | cons l ls ih =>
      simp only [List.foldl_cons, ih, ToDo.mem_foldl_tags, List.mem_cons]
      constructor
      · rintro (⟨m, hm, ht⟩ | ⟨t, ht, hy⟩ | hy)
        · exact Or.inl ⟨m, Or.inr hm, ht⟩
        · exact Or.inl ⟨l, Or.inl rfl, t, ht, hy⟩
        · exact Or.inr hy
      · rintro (⟨m, rfl | hm, ht⟩ | hy)
        · exact Or.inr (Or.inl ht)
        · exact Or.inl ⟨m, hm, ht⟩
        · exact Or.inr (Or.inr hy)

theorem ToDo.sorted_foldl_lists (f : Todotxt.Task → List String)
    (tss : List (List Todotxt.Task)) (acc : List String)
    (h : acc.Sorted (· < ·)) :
    (tss.foldl
      (fun a l => l.foldl
        (fun a t => (f t).foldl (fun a p => ToDo.insertSorted p a) a) a)
      acc).Sorted (· < ·) := by
  induction tss generalizing acc with
  | nil => exact h
  | cons l ls ih => exact ih _ (ToDo.sorted_foldl_tags _ _ _ h)

/-- Characterisation of `get_btree`: the produced names are sorted, a name
occurs iff it occurs as a tag value of some scanned task, and each flag
records membership in `selected`. -/
theorem ToDo.get_btree_spec (tasks : List (List Todotxt.Task))
    (f : Todotxt.Task → List String) (selected : List String) :
    ((ToDo.get_btree tasks f selected).map Prod.fst).Sorted (· < ·) ∧
    (∀ y, y ∈ (ToDo.get_btree tasks f selected).map Prod.fst ↔
      ∃ l ∈ tasks, ∃ t ∈ l, y ∈ f t) ∧
    (∀ p ∈ ToDo.get_btree tasks f selected, (p.2 = true ↔ p.1 ∈ selected)) := by
  have hmap : (ToDo.get_btree tasks f selected).map Prod.fst =
      tasks.foldl
        (fun acc list => list.foldl
          (fun acc task =>
            (f task).foldl (fun acc project => ToDo.insertSorted project acc) acc)
          acc) [] := by
    simp only [ToDo.get_btree, List.map_map]
    exact List.map_id _
  refine ⟨?_, ?_, ?_⟩
  · rw [hmap]
    exact ToDo.sorted_foldl_lists f tasks [] (by simp)
  · intro y
    rw [hmap, ToDo.mem_foldl_lists]
    simp
  · intro p hp
    simp only [ToDo.get_btree] at hp
    obtain ⟨a, _, rfl⟩ := List.mem_map.mp hp
    simp [List.contains, List.elem_iff]

/-- Characterisation of `get_btree_done_switch` in terms of the scanned task
lists (`pending`, plus `done` iff `use_done`). -/
theorem ToDo.get_btree_done_switch_spec (s : ToDo)
    (f : Todotxt.Task → List String) (selected : List String) :
    ((ToDo.get_btree_done_switch s f selected).map Prod.fst).Sorted (· < ·) ∧
    (∀ y, y ∈ (ToDo.get_btree_done_switch s f selected).map Prod.fst ↔
      ∃ t ∈ ToDo.scannedTasks s, y ∈ f t) ∧
    (∀ p ∈ ToDo.get_btree_done_switch s f selected,
      (p.2 = true ↔ p.1 ∈ selected)) := by
  have h := ToDo.get_btree_spec
    (if s.use_done then [s.pending, s.done] else [s.pending]) f selected
  refine ⟨h.1, ?_, h.2.2⟩
  intro y
  rw [ToDo.get_btree_done_switch, h.2.1 y]
  unfold ToDo.scannedTasks
  cases hu : s.use_done
  · simp
  · simp only [if_pos rfl]
    constructor
    · rintro ⟨l, hl, t, ht, hy⟩
      rcases List.mem_cons.mp hl with rfl | hl2
      · exact ⟨t, List.mem_append_left _ ht, hy⟩
      · rcases List.mem_cons.mp hl2 with rfl | hl3
        · exact ⟨t, List.mem_append_right _ ht, hy⟩
        · exact absurd hl3 (List.not_mem_nil l)
    · rintro ⟨t, ht, hy⟩
      rcases List.mem_append.mp ht with ht2 | ht2
      · exact ⟨s.pending, by simp, t, ht2, hy⟩
      · exact ⟨s.done, by simp, t, ht2, hy⟩

/-- Claim C8: for every store and every dimension (project, context,
hashtag), the category query returns one entry per distinct tag value
occurring in `pending` (plus `done` iff `use_done`), without duplicates,
sorted ascending by string order, each entry's flag set exactly when the
dimension's filter set contains the name; and on tag occurrences
`[b, a, b, c]` the names are `[a, b, c]`. -/
theorem claim_C8_get_categories (s : ToDo) :
    (((ToDo.get_projects s).map Prod.fst).Sorted (· < ·) ∧
     ((ToDo.get_projects s).map Prod.fst).Nodup ∧
     (∀ y, y ∈ (ToDo.get_projects s).map Prod.fst ↔
        ∃ t ∈ ToDo.scannedTasks s, y ∈ t.projects) ∧
     (∀ p ∈ ToDo.get_projects s, (p.2 = true ↔ p.1 ∈ s.project_filters))) ∧
    (((ToDo.get_contexts s).map Prod.fst).Sorted (· < ·) ∧
     ((ToDo.get_contexts s).map Prod.fst).Nodup ∧
     (∀ y, y ∈ (ToDo.get_contexts s).map Prod.fst ↔
        ∃ t ∈ ToDo.scannedTasks s, y ∈ t.contexts) ∧
     (∀ p ∈ ToDo.get_contexts s, (p.2 = true ↔ p.1 ∈ s.context_filters))) ∧
    (((ToDo.get_hashtags s).map Prod.fst).Sorted (· < ·) ∧
     ((ToDo.get_hashtags s).map Prod.fst).Nodup ∧
     (∀ y, y ∈ (ToDo.get_hashtags s).map Prod.fst ↔
        ∃ t ∈ ToDo.scannedTasks s, y ∈ t.hashtags) ∧
     (∀ p ∈ ToDo.get_hashtags s, (p.2 = true ↔ p.1 ∈ s.hashtag_filters))) ∧
    (ToDo.get_projects
      { pending := [⟨"1", ["b"], [], [], false⟩, ⟨"2", ["a"], [], [], false⟩,
                    ⟨"3", ["b"], [], [], false⟩, ⟨"4", ["c"], [], [], false⟩],
        done := [], use_done := false, project_filters := [],
        context_filters := [], hashtag_filters := [] }).map Prod.fst =
      ["a", "b", "c"] := by
  have hp := ToDo.get_btree_done_switch_spec s (fun t => t.projects) s.project_filters
  have hc := ToDo.get_btree_done_switch_spec s (fun t => t.contexts) s.context_filters
  have hh := ToDo.get_btree_done_switch_spec s (fun t => t.hashtags) s.hashtag_filters
  refine ⟨⟨hp.1, hp.1.nodup, hp.2.1, hp.2.2⟩, ⟨hc.1, hc.1.nodup, hc.2.1, hc.2.2⟩,
    ⟨hh.1, hh.1.nodup, hh.2.1, hh.2.2⟩, ?_⟩
  have hab : ("a" : String) < "b" := by rw [String.lt_iff_toList_lt]; decide
  have hba : ¬ ("b" : String) < "a" := by rw [String.lt_iff_toList_lt]; decide
  have hca : ¬ ("c" : String) < "a" := by rw [String.lt_iff_toList_lt]; decide
  have hcb : ¬ ("c" : String) < "b" := by rw [String.lt_iff_toList_lt]; decide
  have h2 : ToDo.insertSorted "a" ["b"] = ["a", "b"] := by
    unfold ToDo.insertSorted
    rw [if_pos hab]
  have h3 : ToDo.insertSorted "b" ["a", "b"] = ["a", "b"] := by
    unfold ToDo.insertSorted
    rw [if_neg hba, if_neg (show ¬ ("b" : String) = "a" by decide)]
    unfold ToDo.insertSorted
    rw [if_neg (lt_irrefl ("b" : String)), if_pos rfl]
  have h4 : ToDo.insertSorted "c" ["a", "b"] = ["a", "b", "c"] := by
    unfold ToDo.insertSorted
    rw [if_neg hca, if_neg (show ¬ ("c" : String) = "a" by decide)]
    unfold ToDo.insertSorted
    rw [if_neg hcb, if_neg (show ¬ ("c" : String) = "b" by decide)]
    rfl
  show (ToDo.get_btree
      [[⟨"1", ["b"], [], [], false⟩, ⟨"2", ["a"], [], [], false⟩,
        ⟨"3", ["b"], [], [], false⟩, ⟨"4", ["c"], [], [], false⟩]]
      (fun t => t.projects) []).map Prod.fst = ["a", "b", "c"]
  simp only [ToDo.get_btree, List.foldl_cons, List.foldl_nil]
  rw [show ToDo.insertSorted "b" [] = ["b"] from rfl, h2, h3, h4]
  rfl

theorem claim_C8_witness :
    ("p" ∈ (ToDo.get_projects
      { pending := [⟨"1", ["p"], [], [], false⟩], done := [], use_done := false,
        project_filters := ["p"], context_filters := [],
        hashtag_filters := [] }).map Prod.fst) ∧
    (true = true ↔ "p" ∈ (["p"] : List String)) :=
  ⟨((claim_C8_get_categories _).1.2.2.1 "p").mpr (by decide),
   (claim_C8_get_categories
      { pending := [⟨"1", ["p"], [], [], false⟩], done := [], use_done := false,
        project_filters := ["p"], context_filters := [],
        hashtag_filters := [] }).1.2.2.2 ("p", true) (by decide)⟩
